import Mathlib

/-!
Verification development for the "fossilization" core (Anteater.js) and the
editor content-setting entry point (setContentInternal).

The Anteater source is written against external capabilities (a `universe`
tree capability, `Parent.breakAt` / `Parent.breakPath`, `Subset.ancestors`,
`Parent.sharedOne`, `PredicateFind.closest`, `Arr.findIndex`).  Those modules
are not among the sources at hand, so they are modelled here from the design
document, faithful to its words (each such definition carries a doc comment
starting with "Modelled from the spec:").  Everything that is in the sources
(the adt, breaker, slice, breakLeft, breakRight, fossil, and the whole of the
content-setting module) is translated directly from the source text.
-/

namespace Robin

/-- Tree nodes are opaque handles compared by identity; we represent an
identity as a natural number. -/
abbrev Node := Nat

/-- Modelled from the spec: the Tree Capability (section 4.1).  The host tree
state records, for every node that has children, the ordered list of its
direct children.  Parent lookup, children lookup and insertion are derived
from this record.  Nodes not listed as a key have no children; nodes not
occurring in any child list have no parent (they are roots of the forest). -/
structure TreeState where
  nodes : List (Node × List Node)
deriving DecidableEq, Repr

/-- Tree capability: `childrenOf` (the universe's `property().children`). -/
def childrenOf (s : TreeState) (n : Node) : List Node :=
  ((s.nodes.find? (fun p => p.1 == n)).map (fun p => p.2)).getD []

/-- Tree capability: `parentOf` (the universe's `property().parent`): the
node whose child list contains `n`, if any. -/
def parentOf (s : TreeState) (n : Node) : Option Node :=
  (s.nodes.find? (fun p => p.2.contains n)).map (fun p => p.1)

/-- All node identities mentioned by the state (keys and children). -/
def allNodes (s : TreeState) : List Node :=
  s.nodes.foldr (fun p acc => p.1 :: (p.2 ++ acc)) []

/-- A node identity not yet used by the state, for materializing new shells. -/
def freshNode (s : TreeState) : Node :=
  (allNodes s).foldr max 0 + 1

/-- Fuel bound for upward walks: an ancestor chain in a well-formed state
never revisits a key, so its length is bounded by the number of entries. -/
def fuelOf (s : TreeState) : Nat :=
  s.nodes.length + 1

/-- Detach `child` from every child list (a node is moved, never copied). -/
def removeFromParents (s : TreeState) (child : Node) : TreeState :=
  ⟨s.nodes.map (fun p => (p.1, p.2.filter (fun c => !(c == child))))⟩

/-- Tree capability: `insert().prepend`, moving `child` to the front of
`container`'s child list (detaching it from its previous parent first). -/
def prepend (s : TreeState) (container child : Node) : TreeState :=
  let s1 := removeFromParents s child
  if s1.nodes.any (fun p => p.1 == container) then
    ⟨s1.nodes.map (fun p => if p.1 == container then (p.1, child :: p.2) else p)⟩
  else
    ⟨s1.nodes ++ [(container, [child])]⟩

/-- `Arr.findIndex` with the identity-equality test the source curries in:
the index of `x` in `xs`, or `-1` when absent (the source compares the
result against `-1` and adds `1` to it, so the numeric convention is the
one in use). -/
def findIndex (xs : List Node) (x : Node) : Int :=
  match xs.findIdx? (fun y => y == x) with
  | some i => Int.ofNat i
  | none => -1

/-- JavaScript `Array.prototype.slice(begin, end)` for the non-negative
indices the callers produce: the elements from position `begin` (inclusive)
to `end` (exclusive). -/
def jsSlice (xs : List Node) (b e : Int) : List Node :=
  (xs.take e.toNat).drop b.toNat

/-- Modelled from the spec: `ancestorsUntil` (section 4.2) walks `parentOf`
repeatedly starting at a node, excluding the node itself, stopping
(exclusive) at the first ancestor satisfying `stop`, or at the root. -/
def ancestorsFrom (s : TreeState) (stop : Node → Bool) : Nat → Node → List Node
  | 0, _ => []
  | fuel + 1, n =>
    match parentOf s n with
    | none => []
    | some p => if stop p then [] else p :: ancestorsFrom s stop fuel p

/-- Modelled from the spec: `ancestorsUntil(node, stop)` (section 4.2). -/
def ancestorsUntil (s : TreeState) (n : Node) (stop : Node → Bool) : List Node :=
  ancestorsFrom s stop (fuelOf s) n

/-- Modelled from the spec: `PredicateFind.closest` — the nearest
self-or-ancestor of a node satisfying the predicate (the upward search of
section 4.3, step 3). -/
def closestFrom (s : TreeState) (pred : Node → Bool) : Nat → Node → Option Node
  | 0, _ => none
  | fuel + 1, n =>
    if pred n then some n
    else
      match parentOf s n with
      | none => none
      | some p => closestFrom s pred fuel p

/-- Modelled from the spec: `closest(node, pred)` with the state's fuel. -/
def closest (s : TreeState) (n : Node) (pred : Node → Bool) : Option Node :=
  closestFrom s pred (fuelOf s) n

/-- The source's two-variant adt: `parent(element)` marks a boundary that is
the common ancestor itself, `descendant(element)` marks a boundary produced
below it. -/
inductive Marker where
  | parent (element : Node)
  | descendant (element : Node)
deriving DecidableEq, Repr

/-- Modelled from the spec: the result of `breakPath` (section 4.4) — the
node the walk ended on (`first`) and the moved half of the last split, when
any split happened (`second`). -/
structure BrokenPath where
  first : Node
  second : Option Node
deriving DecidableEq, Repr

/-- Modelled from the spec: `Parent.breakAt` of the Structural Breaker
(section 4.4), which is not among the sources at hand.  It locates the
boundary child among the parent's direct children; if it is the first child
there is nothing to its left and no split is needed (`none`); otherwise it
materializes two sibling shells replacing the parent, the children before
the boundary moving into the left shell and the boundary with the children
after it moving into the right shell, the two shells taking the parent's
place in its own parent's child list. -/
def breakAt (s : TreeState) (parent child : Node) : TreeState × Option (Node × Node) :=
  let cs := childrenOf s parent
  match cs.findIdx? (fun y => y == child) with
  | none => (s, none)
  | some 0 => (s, none)
  | some (i + 1) =>
    let l := freshNode s
    let r := freshNode s + 1
    let replaced : List (Node × List Node) :=
      s.nodes.filterMap (fun p =>
        if p.1 == parent then none
        else some (p.1, (p.2.map (fun c => if c == parent then [l, r] else [c])).flatten))
    (⟨replaced ++ [(l, cs.take (i + 1)), (r, cs.drop (i + 1))]⟩, some (l, r))

/-- The source's `breaker` (Anteater.js lines 21-30): perform the break and
then move the child into the second part of the break by prepending it
there.  The single value the source threads out of `Parent.breakAt` is the
relocated half of the split, i.e. the right shell. -/
def breaker (s : TreeState) (parent child : Node) : TreeState × Option (Node × Node) :=
  match breakAt s parent child with
  | (s1, none) => (s1, none)
  | (s1, some lr) => (prepend s1 lr.2 child, some lr)

/-- The predicate value `breakLeft`/`breakRight` actually hand to
`breakPath`.  The source passes the two-argument curried `isTop` without
applying it to the universe, so the walker's test receives a function value
at every node; a function object is truthy in JavaScript, hence the
effective termination predicate holds for every node (and the body of
`isTop`, which dereferences the undeclared variable `elem`, is never
evaluated). -/
def isTopAsPassed : Node → Bool :=
  fun _ => true

/-- The predicate the design document describes for terminating `breakPath`
(section 4.4): it holds for a node exactly when the node's parent is absent
or is identity-equal to the shared ancestor.  This definition follows the
spec's words, for comparison with the behaviour of the source. -/
def isTopSpec (s : TreeState) (common n : Node) : Bool :=
  match parentOf s n with
  | none => true
  | some p => p == common

/-- Modelled from the spec: the recursion of `breakPath` (section 4.4) —
walk upward while the predicate is false, applying the break function at
each level and threading the moved half of each split as the node to break
at the next level up; terminate when the predicate holds for the current
node or no parent remains. -/
def breakPathGo (isTop : Node → Bool)
    (breakFn : TreeState → Node → Node → TreeState × Option (Node × Node)) :
    Nat → TreeState → Node → Option Node → TreeState × BrokenPath
  | 0, s, current, moved => (s, ⟨current, moved⟩)
  | fuel + 1, s, current, moved =>
    if isTop current then (s, ⟨current, moved⟩)
    else
      match parentOf s current with
      | none => (s, ⟨current, moved⟩)
      | some p =>
        match breakFn s p current with
        | (s1, none) => breakPathGo isTop breakFn fuel s1 p moved
        | (s1, some lr) => breakPathGo isTop breakFn fuel s1 lr.2 (some lr.2)

/-- Modelled from the spec: `Parent.breakPath(universe, item, isTop,
breakFn)` (section 4.4). -/
def breakPath (s : TreeState) (item : Node) (isTop : Node → Bool)
    (breakFn : TreeState → Node → Node → TreeState × Option (Node × Node)) :
    TreeState × BrokenPath :=
  breakPathGo isTop breakFn (fuelOf s) s item none

/-- The source's `breakLeft` (Anteater.js lines 69-78): if the element is the
common ancestor, a parent marker; otherwise break the path upward with the
`breaker` and mark the second (moved) half, falling back to the element
itself when no split happened. -/
def breakLeft (s : TreeState) (element common : Node) : TreeState × Marker :=
  if common == element then (s, Marker.parent element)
  else
    let b := breakPath s element isTopAsPassed breaker
    (b.1, Marker.descendant (b.2.second.getD element))

/-- The source's `breakRight` (Anteater.js lines 80-89): if the element is
the common ancestor, a parent marker; otherwise break the path upward with
the plain `Parent.breakAt` and mark the node the walk ended on. -/
def breakRight (s : TreeState) (element common : Node) : TreeState × Marker :=
  if common == element then (s, Marker.parent element)
  else
    let b := breakPath s element isTopAsPassed breakAt
    (b.1, Marker.descendant b.2.first)

/-- The first index the source's `slice` computes (Anteater.js lines 36-40):
`0` for a parent marker, the found index for a descendant marker. -/
def sliceFirstIndex (children : List Node) (first : Marker) : Int :=
  match first with
  | Marker.parent _ => 0
  | Marker.descendant f => findIndex children f

/-- The last index the source's `slice` computes (Anteater.js lines 42-46):
the number of children for a parent marker, the found index plus one for a
descendant marker. -/
def sliceLastIndex (children : List Node) (last : Marker) : Int :=
  match last with
  | Marker.parent _ => Int.ofNat children.length
  | Marker.descendant l => findIndex children l + 1

/-- The source's `slice` (Anteater.js lines 33-51): the subsection of the
parent's direct children between the two markers, guarded by the comparison
of both computed indices against `-1`. -/
def slice (s : TreeState) (parent : Node) (first last : Marker) : Option (List Node) :=
  let children := childrenOf s parent
  let fi := sliceFirstIndex children first
  let li := sliceLastIndex children last
  if (-1 : Int) < fi ∧ (-1 : Int) < li then some (jsSlice children fi li) else none

/-- Modelled from the spec: the shared node of `Subset.ancestors` (section
4.3, steps 1-2) — the chains of the two boundary nodes, each including the
node itself as its head, and the nearest point of intersection. -/
def subsetShared (s : TreeState) (start finish : Node) (isRoot : Node → Bool) : Option Node :=
  let cs := start :: ancestorsUntil s start isRoot
  let cf := finish :: ancestorsUntil s finish isRoot
  cs.find? (fun n => cf.contains n)

/-- Modelled from the spec: the fallback `Parent.sharedOne` search (section
4.3, step 3) — the nearest self-or-ancestor satisfying `isRoot` of each
boundary; the shared ancestor when both lookups agree on one node. -/
def sharedOneClosest (s : TreeState) (isRoot : Node → Bool) (start finish : Node) : Option Node :=
  match closest s start isRoot, closest s finish isRoot with
  | some a, some b => if a == b then some a else none
  | _, _ => none

/-- The shared-ancestor resolution of the source's `fossil` (Anteater.js
lines 92-100): the chain intersection of `Subset.ancestors`, falling back to
the `sharedOne`/`closest` search when the chains do not intersect. -/
def sharedOf (s : TreeState) (isRoot : Node → Bool) (start finish : Node) : Option Node :=
  match subsetShared s start finish isRoot with
  | none => sharedOneClosest s isRoot start finish
  | some sh => some sh

/-- The source's `fossil` (Anteater.js lines 91-114): resolve the shared
ancestor, break the finish side, then the start side, then slice the shared
ancestor's direct children between the two markers.  The host tree state is
threaded explicitly. -/
def fossil (s : TreeState) (isRoot : Node → Bool) (start finish : Node) :
    TreeState × Option (List Node) :=
  match sharedOf s isRoot start finish with
  | none => (s, none)
  | some common =>
    let secondBreak := breakRight s finish common
    let firstBreak := breakLeft secondBreak.1 start common
    (firstBreak.1, slice firstBreak.1 common firstBreak.2 secondBreak.2)

end Robin

namespace Robin

/-! Helper lemmas shared by several results below. -/

/-- With the predicate the source actually passes (truthy at every node),
`breakPath` terminates immediately: no level is broken, the walk ends on the
item itself, and no moved half exists. -/
theorem breakPath_always_top (s : TreeState) (item : Node)
    (f : TreeState → Node → Node → TreeState × Option (Node × Node)) :
    breakPath s item isTopAsPassed f = (s, ⟨item, none⟩) := by
  simp [breakPath, breakPathGo, isTopAsPassed, fuelOf]

/-- When the element is not the common ancestor, `breakLeft` leaves the tree
untouched and falls back to the element itself as the descendant marker. -/
theorem breakLeft_ne (s : TreeState) (element common : Node) (h : ¬ common = element) :
    breakLeft s element common = (s, Marker.descendant element) := by
  simp [breakLeft, h, breakPath_always_top]

/-- When the element is not the common ancestor, `breakRight` leaves the tree
untouched and returns the element itself as the descendant marker. -/
theorem breakRight_ne (s : TreeState) (element common : Node) (h : ¬ common = element) :
    breakRight s element common = (s, Marker.descendant element) := by
  simp [breakRight, h, breakPath_always_top]

end Robin

namespace Robin

/-- C1: the claim says that for every valid pair with a common ancestor the
slice returned by `fossil` spans exactly the content between `start` and
`finish`.  Evaluation at a failing input: in the tree 0[1[2[3], 4]] with
root predicate "is 0", the pair (start 3, finish 4) is valid and has common
ancestor 1, yet `fossil` leaves the tree untouched and returns no slice at
all, because the termination predicate handed to the path breaker holds
everywhere and the start boundary is never surfaced as a direct child of the
common ancestor. -/
theorem fossil_c1_failing_eval :
    sharedOf (⟨[(0, [1]), (1, [2, 4]), (2, [3])]⟩ : TreeState) (fun n => n == 0) 3 4 = some 1 ∧
    fossil (⟨[(0, [1]), (1, [2, 4]), (2, [3])]⟩ : TreeState) (fun n => n == 0) 3 4 =
      ((⟨[(0, [1]), (1, [2, 4]), (2, [3])]⟩ : TreeState), none) := by
  decide

/-- C2: in every invocation of `fossil` the finish-side break is performed
strictly before the start-side break, and the resulting tree state (and the
whole result) equals the one obtained by applying the finish-side break
first and the start-side break second, threading the state through. -/
theorem fossil_breaks_right_then_left (s : TreeState) (isRoot : Node → Bool)
    (start finish common : Node)
    (h : sharedOf s isRoot start finish = some common) :
    fossil s isRoot start finish =
      ((breakLeft (breakRight s finish common).1 start common).1,
        slice (breakLeft (breakRight s finish common).1 start common).1 common
          (breakLeft (breakRight s finish common).1 start common).2
          (breakRight s finish common).2) := by
  simp [fossil, h]

/-- Witness for C2 at a concrete tree 1[2, 3] with start 2, finish 3. -/
theorem fossil_breaks_right_then_left_witness :
    fossil (⟨[(1, [2, 3])]⟩ : TreeState) (fun _ => false) 2 3 =
      ((breakLeft (breakRight (⟨[(1, [2, 3])]⟩ : TreeState) 3 1).1 2 1).1,
        slice (breakLeft (breakRight (⟨[(1, [2, 3])]⟩ : TreeState) 3 1).1 2 1).1 1
          (breakLeft (breakRight (⟨[(1, [2, 3])]⟩ : TreeState) 3 1).1 2 1).2
          (breakRight (⟨[(1, [2, 3])]⟩ : TreeState) 3 1).2) :=
  fossil_breaks_right_then_left _ _ 2 3 1 (by decide)

/-- C3: the claim says `slice` fails (returns none) whenever either marker
cannot be located among the common ancestor's direct children.  Evaluation
at a failing input: over the parent 1 with children [2, 3], with the last
marker a node 9 that is not among the children, the found index is -1, the
computed end index is -1 + 1 = 0, the guard 0 > -1 still passes, and `slice`
returns a successful empty slice instead of failing. -/
theorem slice_c3_failing_eval :
    findIndex (childrenOf (⟨[(1, [2, 3])]⟩ : TreeState) 1) 9 = -1 ∧
    slice (⟨[(1, [2, 3])]⟩ : TreeState) 1 (Marker.descendant 2) (Marker.descendant 9) =
      some [] := by
  decide

/-- C4: the claim says `fossil` returns none only when no common ancestor
exists.  Evaluation at a failing input: in the tree 0[1[2[4], 3]] with root
predicate "is 0", the pair (start 4, finish 3) has the common ancestor 1,
yet `fossil` returns none (the start boundary, never having been broken out,
cannot be located among the common ancestor's direct children). -/
theorem fossil_c4_failing_eval :
    sharedOf (⟨[(0, [1]), (1, [2, 3]), (2, [4])]⟩ : TreeState) (fun n => n == 0) 4 3 = some 1 ∧
    fossil (⟨[(0, [1]), (1, [2, 3]), (2, [4])]⟩ : TreeState) (fun n => n == 0) 4 3 =
      ((⟨[(0, [1]), (1, [2, 3]), (2, [4])]⟩ : TreeState), none) := by
  decide

/-- C5: the claim says the predicate terminating `breakPath` holds for a
node exactly when its parent is absent or is the shared ancestor.  In the
tree 1[2[3]], taking 1 as the shared ancestor, node 3 has the present parent
2 which differs from 1, so the described predicate is false at 3 — but the
predicate value the source actually passes holds at 3 (it holds at every
node, being the un-applied curried function, truthy in JavaScript). -/
theorem isTop_c5_divergence :
    isTopAsPassed 3 = true ∧
    isTopSpec (⟨[(1, [2]), (2, [3])]⟩ : TreeState) 1 3 = false ∧
    parentOf (⟨[(1, [2]), (2, [3])]⟩ : TreeState) 3 = some 2 := by
  decide

/-- C6: the claim says that for a finish below the common ancestor,
`breakRight` returns the left half of the finish-side break, now a direct
child of the common ancestor, and `breakLeft` the right half of the
start-side break with the start subtree moved into it.  Evaluation at a
failing input: in the tree 0[1[2, 3[4]]] with common ancestor 1, finish 4
and start 2, no break is performed at all (the state is returned unchanged),
`breakRight` yields the original node 4 itself — whose parent is 3, not the
common ancestor 1 — and `breakLeft` yields the original node 2. -/
theorem break_c6_failing_eval :
    sharedOf (⟨[(0, [1]), (1, [2, 3]), (3, [4])]⟩ : TreeState) (fun n => n == 0) 2 4 = some 1 ∧
    breakRight (⟨[(0, [1]), (1, [2, 3]), (3, [4])]⟩ : TreeState) 4 1 =
      ((⟨[(0, [1]), (1, [2, 3]), (3, [4])]⟩ : TreeState), Marker.descendant 4) ∧
    parentOf (⟨[(0, [1]), (1, [2, 3]), (3, [4])]⟩ : TreeState) 4 = some 3 ∧
    ¬ (3 : Node) = 1 ∧
    breakLeft (⟨[(0, [1]), (1, [2, 3]), (3, [4])]⟩ : TreeState) 2 1 =
      ((⟨[(0, [1]), (1, [2, 3]), (3, [4])]⟩ : TreeState), Marker.descendant 2) := by
  decide

/-- C7: if the start boundary is already the first child of its parent (and
the finish boundary the last child of its parent), no split occurs on either
side: the breaks leave the tree untouched and reuse the existing nodes as
the markers, never fabricating a fresh shell. -/
theorem break_noop_at_existing_boundary (s : TreeState) (start finish common p q : Node)
    (_hp : parentOf s start = some p)
    (_hfirst : (childrenOf s p).head? = some start)
    (hsc : ¬ common = start)
    (_hq : parentOf s finish = some q)
    (_hlast : (childrenOf s q).getLast? = some finish)
    (hfc : ¬ common = finish) :
    breakLeft s start common = (s, Marker.descendant start) ∧
    breakRight s finish common = (s, Marker.descendant finish) :=
  ⟨breakLeft_ne s start common hsc, breakRight_ne s finish common hfc⟩

/-- Witness for C7 in the tree 0[1[2[4, 5], 3[6, 7]]]: start 4 is the first
child of its parent 2, finish 7 the last child of its parent 3, the common
ancestor is 1. -/
theorem break_noop_at_existing_boundary_witness :
    breakLeft (⟨[(0, [1]), (1, [2, 3]), (2, [4, 5]), (3, [6, 7])]⟩ : TreeState) 4 1 =
      ((⟨[(0, [1]), (1, [2, 3]), (2, [4, 5]), (3, [6, 7])]⟩ : TreeState), Marker.descendant 4) ∧
    breakRight (⟨[(0, [1]), (1, [2, 3]), (2, [4, 5]), (3, [6, 7])]⟩ : TreeState) 7 1 =
      ((⟨[(0, [1]), (1, [2, 3]), (2, [4, 5]), (3, [6, 7])]⟩ : TreeState), Marker.descendant 7) :=
  break_noop_at_existing_boundary _ 4 7 1 2 3 (by decide) (by decide) (by decide)
    (by decide) (by decide) (by decide)

/-- C8: the claim says the implementation validates document order and fails
fast with an invalid-order condition whenever start does not precede finish.
Counterexample: in the tree 5[6[7, 8]] with root predicate "is 5", the pair
(start 8, finish 7) is out of order, yet `fossil` performs no validation and
returns a successful empty slice rather than any failure. -/
theorem fossil_invalid_order_counterexample :
    sharedOf (⟨[(5, [6]), (6, [7, 8])]⟩ : TreeState) (fun n => n == 5) 8 7 = some 6 ∧
    fossil (⟨[(5, [6]), (6, [7, 8])]⟩ : TreeState) (fun n => n == 5) 8 7 =
      ((⟨[(5, [6]), (6, [7, 8])]⟩ : TreeState), some []) := by
  decide

/-- C8 (amended): `fossil` performs no document-order validation and has no
invalid-order failure: whenever both boundaries sit among the shared
ancestor's direct children with the finish strictly before the start, it
proceeds with the (no-op) breaks and returns a successful empty slice, the
tree left unmodified. -/
theorem fossil_no_order_validation (s : TreeState) (isRoot : Node → Bool)
    (start finish common : Node) (i j : Nat)
    (hsh : sharedOf s isRoot start finish = some common)
    (hs : ¬ common = start) (hf : ¬ common = finish)
    (hi : findIndex (childrenOf s common) start = Int.ofNat i)
    (hj : findIndex (childrenOf s common) finish = Int.ofNat j)
    (hij : j < i) :
    fossil s isRoot start finish = (s, some []) := by
  have hbr := breakRight_ne s finish common hf
  have hbl := breakLeft_ne s start common hs
  have h1 : (Int.ofNat j + 1).toNat = j + 1 := by
    simp only [Int.ofNat_eq_coe]
    omega
  have h2 : (Int.ofNat i).toNat = i := by
    simp only [Int.ofNat_eq_coe]
    omega
  have hslice : slice s common (Marker.descendant start) (Marker.descendant finish) =
      some [] := by
    simp only [slice, sliceFirstIndex, sliceLastIndex, hi, hj]
    rw [if_pos ⟨by simp only [Int.ofNat_eq_coe]; omega, by simp only [Int.ofNat_eq_coe]; omega⟩]
    refine congrArg some ?_
    simp only [jsSlice, h1, h2]
    exact List.drop_eq_nil_of_le (le_trans (List.length_take_le _ _) (by omega))
  simp [fossil, hsh, hbr, hbl, hslice]

/-- Witness for the amended C8 at the tree 0[1[2, 3]] with the reversed pair
(start 3, finish 2). -/
theorem fossil_no_order_validation_witness :
    fossil (⟨[(0, [1]), (1, [2, 3])]⟩ : TreeState) (fun n => n == 0) 3 2 =
      ((⟨[(0, [1]), (1, [2, 3])]⟩ : TreeState), some []) :=
  fossil_no_order_validation _ _ 3 2 1 1 0 (by decide) (by decide) (by decide)
    (by decide) (by decide) (by decide)

/-- C9: a parent-variant first marker always yields start index 0, a
parent-variant last marker always yields end index equal to the number of
the common ancestor's direct children, so with both parent markers `slice`
returns the whole child list rather than failing on a lookup of the common
ancestor among its own children; and the parent markers are exactly what the
breaks return when the boundary equals the common ancestor. -/
theorem slice_parent_variant (s : TreeState) (p x y : Node) :
    sliceFirstIndex (childrenOf s p) (Marker.parent x) = 0 ∧
    sliceLastIndex (childrenOf s p) (Marker.parent y) = Int.ofNat (childrenOf s p).length ∧
    slice s p (Marker.parent x) (Marker.parent y) = some (childrenOf s p) ∧
    breakLeft s p p = (s, Marker.parent p) ∧
    breakRight s p p = (s, Marker.parent p) := by
  refine ⟨rfl, rfl, ?_, by simp [breakLeft], by simp [breakRight]⟩
  simp only [slice, sliceFirstIndex, sliceLastIndex]
  rw [if_pos ⟨by omega, by simp only [Int.ofNat_eq_coe]; omega⟩]
  refine congrArg some ?_
  simp [jsSlice]

end Robin

namespace Tiny

/-!
Embedding of the content-setting module (setContentInternal and its local
helpers).  The editor object, its document body, the pre/post set-content
hooks, the markup parsing and serializing services and the settings lookups
live outside the sources at hand; they are modelled as unconstrained
parameters of the `Editor` structure, and the writes the module itself
performs against the editor's document are recorded in an explicit event
log.
-/

/-- A parsed content tree handle (the AstNode of the source), compared by
identity. -/
abbrev AstNode := Nat

/-- The content argument: either markup text or a parsed content tree. -/
inductive Content where
  | str (s : String)
  | tree (n : AstNode)
deriving DecidableEq, Repr

/-- The source's isTreeNode check (instanceof AstNode). -/
def isTreeNode : Content → Bool
  | Content.tree _ => true
  | Content.str _ => false

/-- The defaulted set-content arguments after setupArgs. -/
structure SetContentArgs where
  format : String
  set : Bool
  content : String
  no_selection : Option Bool
deriving DecidableEq, Repr

/-- The caller-supplied argument object before defaulting (every field
optional, as in the source's Partial type). -/
structure InputArgs where
  format : Option String
  set : Option Bool
  content : Option String
  no_selection : Option Bool
deriving DecidableEq, Repr

/-- The document body of the editor, with the host facts the module reads
from it: its tag name and whether it preserves whitespace. -/
structure Body where
  nodeName : String
  wsPreserve : Bool
deriving DecidableEq, Repr

/-- The events the module performs against the editor's document, in order.
Setting markup on the body, emptying the body and appending a parsed
fragment are document writes; moving the selection and firing the
post-process hook are not. -/
inductive EdEvent where
  | setBodyHtml (html : String)
  | emptyBody
  | appendChild (n : AstNode)
  | moveSelection
  | postProcess (html : String)
deriving DecidableEq, Repr

/-- Whether an event writes HTML into the editor's document. -/
def EdEvent.isDocWrite : EdEvent → Bool
  | EdEvent.setBodyHtml _ => true
  | EdEvent.emptyBody => true
  | EdEvent.appendChild _ => true
  | EdEvent.moveSelection => false
  | EdEvent.postProcess _ => false

/-- The editor collaborator: the pre-process hook, the optional document
body, and the host services the string and tree paths consult.  All of them
are unconstrained parameters. -/
structure Editor where
  preProcess : SetContentArgs → Option SetContentArgs
  body : Option Body
  hasFocus : Bool
  forcedRootBlock : String
  isValidChild : String → String → Bool
  createHTML : String → String → String
  parseHtml : String → AstNode
  serialize : AstNode → String
  trim : String → String

/-- The html argument of setEditorHtml: markup text or a parsed fragment. -/
inductive HtmlArg where
  | str (s : String)
  | node (n : AstNode)
deriving DecidableEq, Repr

/-- The source's setEditorHtml: write the markup (or empty the body and
append the fragment), then move the selection unless `no_selection` is
exactly true. -/
def setEditorHtml (ed : Editor) (html : HtmlArg) (noSelection : Option Bool) : List EdEvent :=
  let writes :=
    match html with
    | HtmlArg.str h => [EdEvent.setBodyHtml h]
    | HtmlArg.node n => [EdEvent.emptyBody, EdEvent.appendChild n]
  let sel := if noSelection ≠ some true then
      (if ed.hasFocus then [EdEvent.moveSelection] else []) else []
  writes ++ sel

/-- The result record of the string/tree paths: the content handed back and
the html that was set. -/
structure SetContentResult where
  content : Content
  html : String
deriving DecidableEq, Repr

/-- The whitespace-only test of the source's padding branch. -/
def isOnlyWhitespace (s : String) : Bool :=
  s.length != 0 && s.toList.all Char.isWhitespace

/-- Lower-casing as the source applies it to tag and block names. -/
def lowerStr (s : String) : String :=
  s.map Char.toLower

/-- The source's setContentString: pad empty or whitespace-only content
(table and list bodies get structural padding; a configured and valid forced
root block wraps the padding; otherwise a bare padding element), set the
result as the body's markup; non-empty content is parsed and the fragment
set. -/
def setContentString (ed : Editor) (body : Body) (content : String) (args : SetContentArgs) :
    SetContentResult × List EdEvent :=
  if content.length == 0 || isOnlyWhitespace content then
    let padd := "<br data-mce-bogus=\"1\">"
    let c1 :=
      if body.nodeName == "TABLE" then "<tr><td>" ++ padd ++ "</td></tr>"
      else if body.nodeName == "UL" || body.nodeName == "OL" then "<li>" ++ padd ++ "</li>"
      else content
    let c2 :=
      if ed.forcedRootBlock != "" &&
          ed.isValidChild (lowerStr body.nodeName) (lowerStr ed.forcedRootBlock) then
        ed.createHTML ed.forcedRootBlock padd
      else if c1 == "" then padd
      else c1
    (⟨Content.str c2, c2⟩, setEditorHtml ed (HtmlArg.str c2) args.no_selection)
  else
    let fragment := ed.parseHtml content
    (⟨Content.str content, content⟩, setEditorHtml ed (HtmlArg.node fragment) args.no_selection)

/-- The source's setContentTree: serialize the (filtered) tree, trim the
markup unless the body preserves whitespace, set it, and hand the original
tree handle back. -/
def setContentTree (ed : Editor) (body : Body) (content : AstNode) (args : SetContentArgs) :
    SetContentResult × List EdEvent :=
  let html := ed.serialize content
  let trimmedHtml := if body.wsPreserve then html else ed.trim html
  (⟨Content.tree content, trimmedHtml⟩, setEditorHtml ed (HtmlArg.str trimmedHtml) args.no_selection)

/-- The source's setupArgs: default the format, spread the caller's
arguments, then force `set` and replace a tree content by the empty
string. -/
def setupArgs (args : InputArgs) (content : Content) : SetContentArgs :=
  { format := args.format.getD "html"
    set := true
    content := match content with
      | Content.tree _ => ""
      | Content.str s => s
    no_selection := args.no_selection }

/-- The source's setContentInternal: run the pre-process hook; on no updated
arguments hand the original content back untouched; otherwise dispatch on
the body and the content kind, falling back — when the editor has no body —
to a result carrying the original content and the updated argument markup,
then fire the post-process hook and hand back the result's content. -/
def setContentInternal (ed : Editor) (content : Content) (args : InputArgs) :
    Content × List EdEvent :=
  let defaultedArgs := setupArgs args content
  match ed.preProcess defaultedArgs with
  | none => (content, [])
  | some updatedArgs =>
    let updatedContent := if isTreeNode content then content else Content.str updatedArgs.content
    let re :=
      match ed.body with
      | some body =>
        match updatedContent with
        | Content.tree t => setContentTree ed body t updatedArgs
        | Content.str st => setContentString ed body st updatedArgs
      | none => (⟨content, updatedArgs.content⟩, [])
    (re.1.content, re.2 ++ [EdEvent.postProcess re.1.html])

/-- C10: setContentInternal hands the original content argument back
unchanged whenever the pre-process hook yields no updated arguments or the
editor has no body; and in the no-body case no HTML is written to the
editor's document. -/
theorem setContentInternal_bypass (ed : Editor) (content : Content) (args : InputArgs) :
    (ed.preProcess (setupArgs args content) = none →
      setContentInternal ed content args = (content, [])) ∧
    (ed.body = none →
      (setContentInternal ed content args).1 = content ∧
      (setContentInternal ed content args).2.all (fun e => !e.isDocWrite) = true) := by
  constructor
  · intro h
    simp [setContentInternal, h]
  · intro h
    cases hpre : ed.preProcess (setupArgs args content) with
    | none => simp [setContentInternal, hpre]
    | some updatedArgs =>
      simp [setContentInternal, hpre, h, EdEvent.isDocWrite]

/-- Witness for C10 at an editor whose pre-process hook declines and whose
body is absent, with plain string content. -/
theorem setContentInternal_bypass_witness :
    setContentInternal
        ⟨fun _ => none, none, false, "", fun _ _ => false, fun _ _ => "", fun _ => 0,
          fun _ => "", fun s => s⟩
        (Content.str "x") ⟨none, none, none, none⟩ = (Content.str "x", []) ∧
    (setContentInternal
        ⟨fun _ => none, none, false, "", fun _ _ => false, fun _ _ => "", fun _ => 0,
          fun _ => "", fun s => s⟩
        (Content.str "x") ⟨none, none, none, none⟩).1 = Content.str "x" :=
  ⟨(setContentInternal_bypass _ (Content.str "x") ⟨none, none, none, none⟩).1 rfl,
    ((setContentInternal_bypass _ (Content.str "x") ⟨none, none, none, none⟩).2 rfl).1⟩

end Tiny
